import Mathlib

/-!
Verification of the hybrid recommendation engine and the two offline
similarity indexers of the customer-data repository.

The Python source is shallowly embedded: SQL tables become explicit lists,
floating-point scores become exact rationals, and the per-request pipeline
(`HybridRecommendationService` in
`api/services/hybrid_recommendation_service.py`) becomes a pure function of
an explicit database value.  The offline indexer scripts
(`ml-engine/scripts/compute_content_similarity.py` and
`ml-engine/scripts/compute_item_knn_cf.py`) are embedded with their cosine
similarity matrix and co-user counts taken as explicit function parameters,
since the invariants under scrutiny hold for every value of those inputs.
-/

namespace CustomerData

/-- A row of `ml_item_content_features`: the item catalog. -/
structure Feature where
  product_id : Int
  title : String
  brand : Option String
  category : Option String
  price_current : ℚ
  popularity_30d : Option ℚ
  rating : Option ℚ
  is_active : Bool
deriving DecidableEq, Repr

/-- A row of `ml_interactions_implicit`: one user-item event.  `days_ago`
embeds the SQL expression `EXTRACT(days FROM NOW() - event_ts)`. -/
structure Interaction where
  user_id : Int
  product_id : Int
  event_ts : ℚ
  amount : ℚ
  days_ago : Nat
deriving DecidableEq, Repr

/-- A row of `ml_item_sim_cf`: a collaborative similarity edge. -/
structure CFEdge where
  product_id : Int
  similar_product_id : Int
  sim_score : ℚ
  co_users : Nat
deriving DecidableEq, Repr

/-- A row of `ml_item_sim_content`: a content similarity edge. -/
structure ContentEdge where
  product_id : Int
  similar_product_id : Int
  sim_score : ℚ
deriving DecidableEq, Repr

/-- The database state the online service reads. -/
structure DB where
  interactions : List Interaction
  cf_edges : List CFEdge
  content_edges : List ContentEdge
  features : List Feature
deriving DecidableEq, Repr

/-- A request-scoped candidate dictionary.  Fields with defaults model keys
the Python code adds only later (or not at all) to the candidate dict. -/
structure Candidate where
  product_id : Int
  title : String := ""
  brand : Option String := none
  category : Option String := none
  price : ℚ := 0
  popularity_score : ℚ := 0
  rating : ℚ := 0
  score : ℚ := 0
  source : String := ""
  cf_similarity : Option ℚ := none
  co_users : Option Nat := none
  content_similarity : Option ℚ := none
  score_normalized : Option ℚ := none
  cf_score : ℚ := 0
  cb_score : ℚ := 0
  pop_score : ℚ := 0
  hybrid_score : ℚ := 0
  diversity_penalty : ℚ := 0
  novelty_bonus : ℚ := 0
  price_penalty : ℚ := 0
deriving DecidableEq, Repr

/-- Minimum of a list of rationals; Python's `min(scores)` (callers pass a
non-empty list, the `[]` case is unreachable there). -/
def listMin : List ℚ → ℚ
  | [] => 0
  | a :: t => t.foldl min a

/-- Maximum of a list of rationals; Python's `max(scores)`. -/
def listMax : List ℚ → ℚ
  | [] => 0
  | a :: t => t.foldl max a

/-- Insert one element into a descending-by-key list, after any element of
equal key: one step of a stable descending insertion sort. -/
def insertByD (key : α → ℚ) (x : α) : List α → List α
  | [] => [x]
  | y :: ys => if key y < key x then x :: y :: ys else y :: insertByD key x ys

/-- Stable sort, descending by `key`: the embedding of Python's
`sorted(-, key=-, reverse=True)` and of SQL `ORDER BY - DESC`. -/
def sortByD (key : α → ℚ) (l : List α) : List α :=
  l.foldl (fun acc x => insertByD key x acc) []

/-- Lookup in an insertion-ordered association list (a Python dict). -/
def lookupA (l : List (Int × α)) (k : Int) : Option α :=
  (l.find? (fun p => p.1 == k)).map (fun p => p.2)

/-- `d[k] = v` on an insertion-ordered association list: replace in place if
the key exists, else append. -/
def setA : List (Int × α) → Int → α → List (Int × α)
  | [], k, v => [(k, v)]
  | (k', v') :: t, k, v =>
    if k' = k then (k, v) :: t else (k', v') :: setA t k v

/-- The candidate-dict update used by both retrieval sources:
`if pid not in candidates or candidates[pid].score < new_score`. -/
def updIfBetter (l : List (Int × Candidate)) (k : Int) (c : Candidate) :
    List (Int × Candidate) :=
  match lookupA l k with
  | none => l ++ [(k, c)]
  | some old => if old.score < c.score then setA l k c else l

/-- `HybridRecommendationService.normalize_scores` with the default
`score_field='score'`: min-max normalization into the separate
`score_normalized` field; all-equal scores map to 1.0. -/
def normalize_scores (candidates : List Candidate) : List Candidate :=
  match candidates with
  | [] => []
  | _ =>
    let scores := candidates.map (fun c => c.score)
    let min_score := listMin scores
    let max_score := listMax scores
    if max_score = min_score then
      candidates.map (fun c => { c with score_normalized := some 1 })
    else
      candidates.map (fun c =>
        let normalized := (c.score - min_score) / (max_score - min_score)
        { c with score_normalized := some normalized })

/-- `self.max_user_history` in `HybridRecommendationService.__init__`. -/
def max_user_history : Nat := 5

/-- `self.cf_min_history`. -/
def cf_min_history : Nat := 2

/-- `self.recency_decay_factor`. -/
def recency_decay_factor : ℚ := 9 / 10

/-- `HybridRecommendationService.get_user_purchase_history`: the user's
rows of `ml_interactions_implicit`, most recent first, limited to 5. -/
def get_user_purchase_history (db : DB) (user_id : Int) : List Interaction :=
  (sortByD (fun i => i.event_ts)
    (db.interactions.filter (fun i => i.user_id == user_id))).take max_user_history

/-- True when a feature row passes `popularity_30d > 0` (SQL: NULL fails). -/
def popularity_pos (f : Feature) : Bool :=
  match f.popularity_30d with
  | some p => decide (0 < p)
  | none => false

/-- The rows of the per-seed CF query: `ml_item_sim_cf` joined with active
catalog rows, purchased items excluded, ordered by `sim_score` descending,
`LIMIT 50`. -/
def cf_seed_rows (db : DB) (seed : Int) (purchased : List Int) :
    List (CFEdge × Feature) :=
  let joined := db.cf_edges.filterMap (fun e =>
    if e.product_id = seed ∧ e.similar_product_id ∉ purchased then
      match db.features.find?
          (fun f => f.product_id == e.similar_product_id && f.is_active) with
      | some f => some (e, f)
      | none => none
    else none)
  (sortByD (fun r => r.1.sim_score) joined).take 50

/-- The candidate dict built for one CF row (`get_cf_candidates` body),
with `score = sim_score * recency_weight`. -/
def mkCFCand (e : CFEdge) (f : Feature) (w : ℚ) : Candidate :=
  { product_id := e.similar_product_id
    title := f.title
    brand := f.brand
    category := f.category
    price := f.price_current
    popularity_score := f.popularity_30d.getD 0
    rating := f.rating.getD 0
    score := e.sim_score * w
    source := "cf"
    cf_similarity := some e.sim_score
    co_users := some e.co_users }

/-- `HybridRecommendationService.get_cf_candidates`: per-seed top-50 CF
edges, each raw score multiplied by `recency_decay_factor ** days_ago`,
keeping the maximum score per target item, then sorted and truncated. -/
def get_cf_candidates (db : DB) (user_id : Int) (limit : Nat) : List Candidate :=
  let user_history := get_user_purchase_history db user_id
  if user_history.length < cf_min_history then []
  else
    let purchased := user_history.map (fun h => h.product_id)
    let dict := user_history.foldl (fun d h =>
      let recency_weight := recency_decay_factor ^ h.days_ago
      (cf_seed_rows db h.product_id purchased).foldl
        (fun d r => updIfBetter d r.1.similar_product_id (mkCFCand r.1 r.2 recency_weight))
        d) []
    (sortByD (fun c => c.score) (dict.map (fun p => p.2))).take limit

/-- The rows of the per-seed content query: `ml_item_sim_content` joined
with active catalog rows, purchased items excluded, `LIMIT 40`. -/
def cb_seed_rows (db : DB) (seed : Int) (purchased : List Int) :
    List (ContentEdge × Feature) :=
  let joined := db.content_edges.filterMap (fun e =>
    if e.product_id = seed ∧ e.similar_product_id ∉ purchased then
      match db.features.find?
          (fun f => f.product_id == e.similar_product_id && f.is_active) with
      | some f => some (e, f)
      | none => none
    else none)
  (sortByD (fun r => r.1.sim_score) joined).take 40

/-- The candidate dict built for one content row. -/
def mkCBCand (e : ContentEdge) (f : Feature) : Candidate :=
  { product_id := e.similar_product_id
    title := f.title
    brand := f.brand
    category := f.category
    price := f.price_current
    popularity_score := f.popularity_30d.getD 0
    rating := f.rating.getD 0
    score := e.sim_score
    source := "content"
    content_similarity := some e.sim_score }

/-- `HybridRecommendationService.get_content_candidates`: the 3 most recent
purchases seed top-40 content edges, no recency weighting, maximum score
kept per target item. -/
def get_content_candidates (db : DB) (user_id : Int) (limit : Nat) :
    List Candidate :=
  let user_history := get_user_purchase_history db user_id
  if user_history.isEmpty then []
  else
    let purchased := user_history.map (fun h => h.product_id)
    let dict := (user_history.take 3).foldl (fun d h =>
      (cb_seed_rows db h.product_id purchased).foldl
        (fun d r => updIfBetter d r.1.similar_product_id (mkCBCand r.1 r.2)) d) []
    (sortByD (fun c => c.score) (dict.map (fun p => p.2))).take limit

/-- The `SELECT DISTINCT category` query of `get_popularity_candidates`:
non-null categories of the user's purchased items. -/
def user_categories_of (db : DB) (purchased : List Int) : List String :=
  ((db.features.filter
    (fun f => purchased.contains f.product_id && f.category.isSome)).filterMap
      (fun f => f.category)).dedup

/-- True when a feature row's category is one of the user's categories
(SQL `category = ANY(user_categories)`, NULL never matches). -/
def cat_matches (f : Feature) (cats : List String) : Bool :=
  match f.category with
  | some c => cats.contains c
  | none => false

/-- `weighted_popularity` of the category-boosted popularity query. -/
def weighted_popularity (f : Feature) (cats : List String) : ℚ :=
  if cat_matches f cats then f.popularity_30d.getD 0 * (3 / 2)
  else f.popularity_30d.getD 0

/-- The popularity candidate dict built from one catalog row. -/
def mkPopCand (f : Feature) (score : ℚ) : Candidate :=
  { product_id := f.product_id
    title := f.title
    brand := f.brand
    category := f.category
    price := f.price_current
    popularity_score := f.popularity_30d.getD 0
    rating := f.rating.getD 0
    score := score
    source := "popularity" }

/-- `HybridRecommendationService.get_popularity_candidates`: top active
items with positive `popularity_30d`; when the user has known categories,
those categories are boosted 1.5x and purchased items are excluded — the
no-category fallback query performs no such exclusion. -/
def get_popularity_candidates (db : DB) (user_id : Int) (limit : Nat) :
    List Candidate :=
  let user_history := get_user_purchase_history db user_id
  let cats := if user_history.isEmpty then []
    else user_categories_of db (user_history.map (fun h => h.product_id))
  if cats.isEmpty then
    let rows := db.features.filter (fun f => f.is_active && popularity_pos f)
    ((sortByD (fun f => f.popularity_30d.getD 0) rows).take limit).map
      (fun f => mkPopCand f (f.popularity_30d.getD 0))
  else
    let purchased := user_history.map (fun h => h.product_id)
    let rows := db.features.filter (fun f =>
      f.is_active && popularity_pos f && !purchased.contains f.product_id)
    ((sortByD (fun f => weighted_popularity f cats) rows).take limit).map
      (fun f => mkPopCand f (weighted_popularity f cats))

/-- The loop body of `calculate_diversity_penalty`: a running per-category
counter, with `penalties[pid] = min(count * 0.1, 0.5)` at each step. -/
def div_go : List Candidate → (String → Nat) → List (Int × ℚ) → List (Int × ℚ)
  | [], _, pens => pens
  | c :: rest, counts, pens =>
    let category := c.category.getD "unknown"
    let counts' := fun s => if s = category then counts s + 1 else counts s
    let penalty := min ((counts' category : ℚ) * (1 / 10)) (1 / 2)
    div_go rest counts' (setA pens c.product_id penalty)

/-- `HybridRecommendationService.calculate_diversity_penalty`: only the
first `top_k * 2` candidates are iterated. -/
def calculate_diversity_penalty (candidates : List Candidate) (top_k : Nat) :
    List (Int × ℚ) :=
  div_go (candidates.take (top_k * 2)) (fun _ => 0) []

/-- `HybridRecommendationService.calculate_novelty_bonus`:
`1 - popularity / max_popularity` when the maximum popularity is positive,
`0.5` for every candidate otherwise. -/
def calculate_novelty_bonus (candidates : List Candidate) : List (Int × ℚ) :=
  match candidates with
  | [] => []
  | _ =>
    let popularities := candidates.map (fun c => c.popularity_score)
    let max_pop := listMax popularities
    candidates.foldl (fun bonuses c =>
      let novelty := if 0 < max_pop then 1 - c.popularity_score / max_pop
        else 1 / 2
      setA bonuses c.product_id novelty) []

/-- `HybridRecommendationService.calculate_price_penalty`. -/
def calculate_price_penalty (candidates : List Candidate)
    (user_history : List Interaction) : List (Int × ℚ) :=
  if user_history.isEmpty then []
  else
    let user_avg_price :=
      (user_history.map (fun h => h.amount)).sum / (user_history.length : ℚ)
    candidates.foldl (fun pens c =>
      let price_gap := if 0 < user_avg_price then
          abs (c.price - user_avg_price) / user_avg_price
        else 0
      setA pens c.product_id (min price_gap 1)) []

/-- Substring test on character lists, embedding Python's `sub in s`. -/
def hasSubAux : List Char → List Char → Bool
  | [], sub => sub.isPrefixOf ([] : List Char)
  | a :: t, sub => sub.isPrefixOf (a :: t) || hasSubAux t sub

/-- Python's `sub in s` for strings. -/
def strIn (sub s : String) : Bool := hasSubAux s.data sub.data

/-- First merge loop of `merge_and_rerank_candidates`: CF candidates. -/
def add_cf_entries (d : List (Int × Candidate)) (cf_list : List Candidate) :
    List (Int × Candidate) :=
  cf_list.foldl (fun d c =>
    let c' := { c with cf_score := c.score_normalized.getD 0,
                       cb_score := 0, pop_score := 0 }
    setA d c.product_id c') d

/-- Second merge loop: content candidates, updating `cb_score` and the
provenance tag of items already present. -/
def add_cb_entries (d : List (Int × Candidate)) (cb_list : List Candidate) :
    List (Int × Candidate) :=
  cb_list.foldl (fun d c =>
    match lookupA d c.product_id with
    | some old => setA d c.product_id
        { old with cb_score := c.score_normalized.getD 0, source := "cf+content" }
    | none => setA d c.product_id
        { c with cf_score := 0, cb_score := c.score_normalized.getD 0,
                 pop_score := 0 }) d

/-- Third merge loop: popularity candidates. -/
def add_pop_entries (d : List (Int × Candidate)) (pop_list : List Candidate) :
    List (Int × Candidate) :=
  pop_list.foldl (fun d c =>
    match lookupA d c.product_id with
    | some old =>
      let source' := if old.source = "cf+content" then "cf+content+pop"
        else if strIn "cf" old.source then "cf+pop"
        else if strIn "content" old.source then "content+pop"
        else old.source
      setA d c.product_id
        { old with pop_score := c.score_normalized.getD 0, source := source' }
    | none => setA d c.product_id
        { c with cf_score := 0, cb_score := 0,
                 pop_score := c.score_normalized.getD 0 }) d

/-- `self.weights['w_cf']`. -/
def w_cf : ℚ := 3 / 20

/-- `self.weights['w_cb']`. -/
def w_cb : ℚ := 3 / 20

/-- `self.weights['w_pop']`. -/
def w_pop : ℚ := 7 / 10

/-- `self.weights['lambda_div']`. -/
def lambda_div : ℚ := 1 / 100

/-- `self.weights['beta_nov']`. -/
def beta_nov : ℚ := 1 / 100

/-- `self.weights['gamma_price']`. -/
def gamma_price : ℚ := 1 / 100

/-- Steps 1-4 of `merge_and_rerank_candidates`: normalize the three source
lists, merge them into one insertion-ordered dict, compute penalties and
bonuses, and attach the hybrid score to every pool member. -/
def merged_pool (cf_candidates cb_candidates pop_candidates : List Candidate)
    (user_history : List Interaction) (k : Nat) : List Candidate :=
  let cf_normalized := normalize_scores cf_candidates
  let cb_normalized := normalize_scores cb_candidates
  let pop_normalized := normalize_scores pop_candidates
  let d := add_pop_entries
    (add_cb_entries (add_cf_entries [] cf_normalized) cb_normalized)
    pop_normalized
  let candidates_list := d.map (fun p => p.2)
  let diversity_penalties := calculate_diversity_penalty candidates_list k
  let novelty_bonuses := calculate_novelty_bonus candidates_list
  let price_penalties := calculate_price_penalty candidates_list user_history
  candidates_list.map (fun c =>
    let dp := (lookupA diversity_penalties c.product_id).getD 0
    let nb := (lookupA novelty_bonuses c.product_id).getD 0
    let pp := (lookupA price_penalties c.product_id).getD 0
    let hybrid := w_cf * c.cf_score + w_cb * c.cb_score + w_pop * c.pop_score
      - lambda_div * dp + beta_nov * nb - gamma_price * pp
    { c with hybrid_score := hybrid, diversity_penalty := dp,
             novelty_bonus := nb, price_penalty := pp })

/-- `HybridRecommendationService.merge_and_rerank_candidates`: the merged
pool sorted by hybrid score descending (a stable sort, as in Python) and
truncated to `k`. -/
def merge_and_rerank_candidates (cf_candidates cb_candidates pop_candidates :
    List Candidate) (user_history : List Interaction) (k : Nat) :
    List Candidate :=
  (sortByD (fun c => c.hybrid_score)
    (merged_pool cf_candidates cb_candidates pop_candidates user_history k)).take k

/-- `self.candidate_limits`: all three limits are 100. -/
def candidate_limit : Nat := 100

/-- `HybridRecommendationService.get_hybrid_recommendations`, restricted to
its `recommendations` list (the other result keys are telemetry). -/
def get_hybrid_recommendations (db : DB) (user_id : Int) (k : Nat) :
    List Candidate :=
  let user_history := get_user_purchase_history db user_id
  merge_and_rerank_candidates
    (get_cf_candidates db user_id candidate_limit)
    (get_content_candidates db user_id candidate_limit)
    (get_popularity_candidates db user_id candidate_limit)
    user_history k

/-- The masked similarity row used by both indexers: the diagonal entry is
overwritten with -1 (`sim_scores[i] = -1`) to exclude the item itself. -/
def eff_score (sim : Nat → Nat → ℚ) (i j : Nat) : ℚ :=
  if j = i then -1 else sim i j

/-- Both indexers' `top_k`. -/
def indexer_top_k : Nat := 50

/-- Both indexers' `min_sim_score`. -/
def indexer_min_sim : ℚ := 1 / 100

/-- `CF_CONFIG['min_co_users']`. -/
def min_co_users : Nat := 5

/-- The selection loop of `ContentSimilarityComputer.extract_top_similar`:
walk the index order, skip scores below `min_sim`, stop at `fuel` kept. -/
def take_top (min_sim : ℚ) (score : Nat → ℚ) : Nat → List Nat → List Nat
  | _, [] => []
  | 0, _ => []
  | fuel + 1, j :: rest =>
    if score j < min_sim then take_top min_sim score (fuel + 1) rest
    else j :: take_top min_sim score fuel rest

/-- The selection loop of
`ItemKNNCollaborativeFiltering.compute_item_similarities`: additionally
skips pairs whose co-user count is below `min_co`. -/
def take_top_cf (min_sim : ℚ) (min_co : Nat) (score : Nat → ℚ)
    (co : Nat → Nat) : Nat → List Nat → List Nat
  | _, [] => []
  | 0, _ => []
  | fuel + 1, j :: rest =>
    if score j < min_sim then take_top_cf min_sim min_co score co (fuel + 1) rest
    else if co j < min_co then take_top_cf min_sim min_co score co (fuel + 1) rest
    else j :: take_top_cf min_sim min_co score co fuel rest

/-- `ContentSimilarityComputer.extract_top_similar` over `n` items.  The
cosine similarity matrix `sim` and the index-to-product-id map `idOf` are
parameters: the extraction step is verified for every matrix value. -/
def extract_top_similar (n : Nat) (sim : Nat → Nat → ℚ) (idOf : Nat → Int) :
    List ContentEdge :=
  (List.range n).flatMap (fun i =>
    let s := eff_score sim i
    (take_top indexer_min_sim s indexer_top_k (sortByD s (List.range n))).map
      (fun j => { product_id := idOf i, similar_product_id := idOf j,
                  sim_score := s j }))

/-- `ItemKNNCollaborativeFiltering.compute_item_similarities` over `n`
items; `co i j` stands for `len(item_users & similar_users)`. -/
def compute_item_similarities (n : Nat) (sim : Nat → Nat → ℚ)
    (co : Nat → Nat → Nat) (idOf : Nat → Int) : List CFEdge :=
  (List.range n).flatMap (fun i =>
    let s := eff_score sim i
    (take_top_cf indexer_min_sim min_co_users s (co i) indexer_top_k
        (sortByD s (List.range n))).map
      (fun j => { product_id := idOf i, similar_product_id := idOf j,
                  sim_score := s j, co_users := co i j }))

/-- `ContentSimilarityComputer.save_similarities_to_db`: `DELETE FROM
ml_item_sim_content` followed by inserting the new rows, committed as one
transaction — the previous table plays no role in the result. -/
def content_save_similarities (_prev new_sims : List ContentEdge) :
    List ContentEdge := new_sims

/-- The `ml_item_sim_content` table after
`run_content_similarity_pipeline`: the save step runs unconditionally. -/
def run_content_similarity_pipeline (prev : List ContentEdge) (n : Nat)
    (sim : Nat → Nat → ℚ) (idOf : Nat → Int) : List ContentEdge :=
  content_save_similarities prev (extract_top_similar n sim idOf)

/-- The `ml_item_sim_cf` table after `run_item_knn_cf_pipeline`: the save
step runs only under `if similarities:`; an empty result raises
`ValueError` and leaves the previous table in place. -/
def run_item_knn_cf_pipeline_table (prev : List CFEdge) (n : Nat)
    (sim : Nat → Nat → ℚ) (co : Nat → Nat → Nat) (idOf : Nat → Int) :
    List CFEdge :=
  let sims := compute_item_similarities n sim co idOf
  if sims.isEmpty then prev else sims

/-- Forget the `score_normalized` field of a candidate: the frame of
`normalize_scores`. -/
def eraseNormalized (c : Candidate) : Candidate :=
  { c with score_normalized := none }

/-- Descending sortedness by a key. -/
abbrev sortedD (key : α → ℚ) (l : List α) : Prop :=
  List.Pairwise (fun a b => key b ≤ key a) l

/-- The keys of an association list are pairwise distinct. -/
abbrev nodupKeysA (l : List (Int × α)) : Prop := (l.map Prod.fst).Nodup

/-- Number of candidates in `l` whose (defaulted) category is `cat`: the
value of the running `category_counts` dict after processing `l`. -/
def countCat (l : List Candidate) (cat : String) : Nat :=
  (l.filter (fun c => c.category.getD "unknown" == cat)).length

/-- A one-item catalog used as a concrete witness input: product 1 is
active with `popularity_30d = 5`; no interactions or edges. -/
def dbPopW : DB :=
  { interactions := []
    cf_edges := []
    content_edges := []
    features := [{ product_id := 1
                   title := ""
                   brand := none
                   category := none
                   price_current := 1
                   popularity_30d := some 5
                   rating := none
                   is_active := true }] }

/-- Concrete input refuting the rank-based recency weight: user 7 bought
product 1 four days ago and product 2 nine days ago; product 1 has one CF
edge to product 100 with similarity 0.5. -/
def dbRecency : DB :=
  { interactions :=
      [{ user_id := 7
         product_id := 1
         event_ts := 10
         amount := 1
         days_ago := 4 },
       { user_id := 7
         product_id := 2
         event_ts := 5
         amount := 1
         days_ago := 9 }]
    cf_edges := [{ product_id := 1
                   similar_product_id := 100
                   sim_score := 1 / 2
                   co_users := 10 }]
    content_edges := []
    features := [{ product_id := 100
                   title := ""
                   brand := none
                   category := some "c"
                   price_current := 1
                   popularity_30d := some 1
                   rating := some 1
                   is_active := true }] }

/-- Concrete input for the history-exclusion claim: user 1's only purchase
is product 10, which is active with positive popularity but a NULL
category, so the fallback popularity query (which lacks the purchased-items
exclusion) returns it. -/
def dbExclusion : DB :=
  { interactions := [{ user_id := 1
                       product_id := 10
                       event_ts := 0
                       amount := 1
                       days_ago := 0 }]
    cf_edges := []
    content_edges := []
    features := [{ product_id := 10
                   title := "t"
                   brand := none
                   category := none
                   price_current := 1
                   popularity_30d := some 5
                   rating := some 1
                   is_active := true }] }

section Helpers

variable {α : Type} {key : α → ℚ}

theorem foldl_min_le_init (a : ℚ) (l : List ℚ) : l.foldl min a ≤ a := by
  induction l generalizing a with
  | nil => exact le_refl a
  | cons h t ih => exact le_trans (ih (min a h)) (min_le_left a h)

theorem foldl_min_le_mem {x : ℚ} {l : List ℚ} (a : ℚ) (hx : x ∈ l) :
    l.foldl min a ≤ x := by
  induction l generalizing a with
  | nil => cases hx
  | cons h t ih =>
    rcases List.mem_cons.mp hx with rfl | hx'
    · exact le_trans (foldl_min_le_init (min a x) t) (min_le_right a x)
    · exact ih (min a h) hx'

theorem listMin_le {x : ℚ} {l : List ℚ} (hx : x ∈ l) : listMin l ≤ x := by
  cases l with
  | nil => cases hx
  | cons h t =>
    rcases List.mem_cons.mp hx with rfl | hx'
    · exact foldl_min_le_init x t
    · exact foldl_min_le_mem h hx'

theorem init_le_foldl_max (a : ℚ) (l : List ℚ) : a ≤ l.foldl max a := by
  induction l generalizing a with
  | nil => exact le_refl a
  | cons h t ih => exact le_trans (le_max_left a h) (ih (max a h))

theorem mem_le_foldl_max {x : ℚ} {l : List ℚ} (a : ℚ) (hx : x ∈ l) :
    x ≤ l.foldl max a := by
  induction l generalizing a with
  | nil => cases hx
  | cons h t ih =>
    rcases List.mem_cons.mp hx with rfl | hx'
    · exact le_trans (le_max_right a x) (init_le_foldl_max (max a x) t)
    · exact ih (max a h) hx'

theorem le_listMax {x : ℚ} {l : List ℚ} (hx : x ∈ l) : x ≤ listMax l := by
  cases l with
  | nil => cases hx
  | cons h t =>
    rcases List.mem_cons.mp hx with rfl | hx'
    · exact init_le_foldl_max x t
    · exact mem_le_foldl_max h hx'

theorem foldl_max_mem (a : ℚ) (l : List ℚ) :
    l.foldl max a = a ∨ l.foldl max a ∈ l := by
  induction l generalizing a with
  | nil => exact Or.inl rfl
  | cons h t ih =>
    rw [List.foldl_cons]
    rcases ih (max a h) with heq | hmem
    · rw [heq]
      rcases max_choice a h with hm | hm
      · exact Or.inl hm
      · rw [hm]; exact Or.inr (List.mem_cons_self h t)
    · exact Or.inr (List.mem_cons_of_mem h hmem)

theorem listMax_mem {l : List ℚ} (hl : l ≠ []) : listMax l ∈ l := by
  cases l with
  | nil => exact absurd rfl hl
  | cons h t =>
    show t.foldl max h ∈ h :: t
    rcases foldl_max_mem h t with heq | hmem
    · rw [heq]; exact List.mem_cons_self h t
    · exact List.mem_cons_of_mem h hmem

theorem mem_insertByD {x y : α} {l : List α} :
    x ∈ insertByD key y l ↔ x = y ∨ x ∈ l := by
  induction l with
  | nil => simp [insertByD]
  | cons z zs ih =>
    by_cases h : key z < key y
    · simp [insertByD, h]
    · simp [insertByD, h, ih]; tauto

theorem sorted_insertByD {x : α} {l : List α} (hs : sortedD key l) :
    sortedD key (insertByD key x l) := by
  induction l with
  | nil => exact List.pairwise_singleton _ x
  | cons y ys ih =>
    rcases List.pairwise_cons.mp hs with ⟨hy, hys⟩
    rw [insertByD]
    by_cases h : key y < key x
    · rw [if_pos h]
      refine List.pairwise_cons.mpr ⟨?_, hs⟩
      intro z hz
      rcases List.mem_cons.mp hz with rfl | hz'
      · exact le_of_lt h
      · exact le_trans (hy z hz') (le_of_lt h)
    · rw [if_neg h]
      refine List.pairwise_cons.mpr ⟨?_, ih hys⟩
      intro z hz
      rcases mem_insertByD.mp hz with rfl | hz'
      · exact le_of_not_lt h
      · exact hy z hz'

theorem sorted_foldl_insert {l : List α} {acc : List α} (hacc : sortedD key acc) :
    sortedD key (l.foldl (fun acc x => insertByD key x acc) acc) := by
  induction l generalizing acc with
  | nil => exact hacc
  | cons x xs ih => exact ih (sorted_insertByD hacc)

theorem sorted_sortByD (l : List α) : sortedD key (sortByD key l) :=
  sorted_foldl_insert List.Pairwise.nil

theorem mem_foldl_insert {x : α} {l acc : List α} :
    x ∈ l.foldl (fun acc y => insertByD key y acc) acc ↔ x ∈ acc ∨ x ∈ l := by
  induction l generalizing acc with
  | nil => simp
  | cons y ys ih =>
    simp only [List.foldl_cons, ih, mem_insertByD, List.mem_cons]
    tauto

theorem mem_sortByD {x : α} {l : List α} : x ∈ sortByD key l ↔ x ∈ l := by
  simp [sortByD, mem_foldl_insert]

theorem filter_insertByD (q : ℚ) (x : α) {l : List α} (hs : sortedD key l) :
    (insertByD key x l).filter (fun a => decide (key a = q)) =
      if key x = q then l.filter (fun a => decide (key a = q)) ++ [x]
      else l.filter (fun a => decide (key a = q)) := by
  induction l with
  | nil =>
    by_cases hx : key x = q <;> simp [insertByD, hx]
  | cons y ys ih =>
    rcases List.pairwise_cons.mp hs with ⟨hy, hys⟩
    rw [insertByD]
    by_cases h : key y < key x
    · rw [if_pos h]
      by_cases hx : key x = q
      · have hnil : ys.filter (fun a => decide (key a = q)) = [] := by
          apply List.filter_eq_nil_iff.mpr
          intro a ha
          have h1 : key a ≤ key y := hy a ha
          have h2 : key a < q := lt_of_le_of_lt h1 (hx ▸ h)
          simp [ne_of_lt h2]
        have hyq : ¬ (key y = q) := ne_of_lt (hx ▸ h)
        simp [List.filter_cons, hx, hyq, hnil]
      · simp [List.filter_cons, hx]
    · rw [if_neg h]
      rw [List.filter_cons, List.filter_cons, ih hys]
      by_cases hx : key x = q <;> by_cases hyq : key y = q <;>
        simp [hx, hyq]

theorem filter_foldl_insert (q : ℚ) {l acc : List α} (hacc : sortedD key acc) :
    (l.foldl (fun acc x => insertByD key x acc) acc).filter
        (fun a => decide (key a = q)) =
      acc.filter (fun a => decide (key a = q)) ++
        l.filter (fun a => decide (key a = q)) := by
  induction l generalizing acc with
  | nil => simp
  | cons x xs ih =>
    simp only [List.foldl_cons]
    rw [ih (sorted_insertByD hacc), filter_insertByD q x hacc]
    by_cases hx : key x = q <;> simp [List.filter, hx]

theorem filter_sortByD (q : ℚ) (l : List α) :
    (sortByD key l).filter (fun a => decide (key a = q)) =
      l.filter (fun a => decide (key a = q)) := by
  simpa using @filter_foldl_insert _ key q l [] List.Pairwise.nil

theorem lookupA_setA_self {β : Type} (l : List (Int × β)) (k : Int) (v : β) :
    lookupA (setA l k v) k = some v := by
  induction l with
  | nil =>
    show lookupA [(k, v)] k = some v
    unfold lookupA
    rw [List.find?_cons_of_pos _ (by simp)]
    rfl
  | cons p t ih =>
    rw [setA]
    by_cases h : p.1 = k
    · rw [if_pos h]
      unfold lookupA
      rw [List.find?_cons_of_pos _ (by simp)]
      rfl
    · rw [if_neg h]
      unfold lookupA at ih ⊢
      rw [List.find?_cons_of_neg _ (by simp [h])]
      exact ih

theorem lookupA_setA_ne {β : Type} (l : List (Int × β)) {k k' : Int} (v : β)
    (hne : k' ≠ k) : lookupA (setA l k v) k' = lookupA l k' := by
  induction l with
  | nil =>
    show lookupA [(k, v)] k' = lookupA [] k'
    unfold lookupA
    rw [List.find?_cons_of_neg _ (by simp [Ne.symm hne])]
  | cons p t ih =>
    rw [setA]
    by_cases h : p.1 = k
    · rw [if_pos h]
      unfold lookupA
      rw [List.find?_cons_of_neg _ (by simp [Ne.symm hne])]
      rw [List.find?_cons_of_neg _ (by simp [h ▸ Ne.symm hne])]
    · rw [if_neg h]
      unfold lookupA at ih ⊢
      by_cases h2 : p.1 = k'
      · rw [List.find?_cons_of_pos _ (by simp [h2]),
          List.find?_cons_of_pos _ (by simp [h2])]
      · rw [List.find?_cons_of_neg _ (by simp [h2]),
          List.find?_cons_of_neg _ (by simp [h2])]
        exact ih

theorem lookupA_foldl_setA_of_not_mem {γ β : Type} (g : γ → Int) (f : γ → β)
    (t : List γ) (acc : List (Int × β)) (k : Int) (hk : k ∉ t.map g) :
    lookupA (t.foldl (fun b x => setA b (g x) (f x)) acc) k = lookupA acc k := by
  induction t generalizing acc with
  | nil => rfl
  | cons a t ih =>
    rw [List.map_cons] at hk
    have hk' : k ∉ t.map g := fun h => hk (List.mem_cons_of_mem _ h)
    have hne : k ≠ g a := fun h => hk (h ▸ List.mem_cons_self _ _)
    rw [List.foldl_cons, ih _ hk']
    exact lookupA_setA_ne acc (f a) hne

theorem lookupA_foldl_setA {γ β : Type} (g : γ → Int) (f : γ → β)
    (cs : List γ) (acc : List (Int × β)) (hnd : (cs.map g).Nodup)
    {c : γ} (hc : c ∈ cs) :
    lookupA (cs.foldl (fun b x => setA b (g x) (f x)) acc) (g c) = some (f c) := by
  induction cs generalizing acc with
  | nil => cases hc
  | cons a t ih =>
    rw [List.map_cons, List.nodup_cons] at hnd
    rcases List.mem_cons.mp hc with rfl | hc'
    · rw [List.foldl_cons,
        lookupA_foldl_setA_of_not_mem g f t _ _ hnd.1]
      exact lookupA_setA_self acc (g c) (f c)
    · rw [List.foldl_cons]
      exact ih (setA acc (g a) (f a)) hnd.2 hc'

theorem lookupA_div_go_not_mem (l : List Candidate) (counts : String → Nat)
    (pens : List (Int × ℚ)) (k : Int)
    (hk : k ∉ l.map (fun c => c.product_id)) :
    lookupA (div_go l counts pens) k = lookupA pens k := by
  induction l generalizing counts pens with
  | nil => rfl
  | cons a t ih =>
    rw [List.map_cons] at hk
    have hk' : k ∉ t.map (fun c => c.product_id) :=
      fun h => hk (List.mem_cons_of_mem _ h)
    have hne : k ≠ a.product_id := fun h => hk (h ▸ List.mem_cons_self _ _)
    simp only [div_go]
    rw [ih _ _ hk']
    exact lookupA_setA_ne pens _ hne

theorem lookupA_div_go (l : List Candidate) (counts : String → Nat)
    (pens : List (Int × ℚ)) (hnd : (l.map (fun c => c.product_id)).Nodup)
    (i : Nat) (hi : i < l.length) :
    lookupA (div_go l counts pens) (l.get ⟨i, hi⟩).product_id =
      some (min (((counts ((l.get ⟨i, hi⟩).category.getD "unknown") +
          countCat (l.take (i + 1)) ((l.get ⟨i, hi⟩).category.getD "unknown") :
          Nat) : ℚ) * (1 / 10)) (1 / 2)) := by
  induction l generalizing counts pens i with
  | nil => exact absurd hi (by simp)
  | cons a t ih =>
    rw [List.map_cons, List.nodup_cons] at hnd
    cases i with
    | zero =>
      simp only [div_go, List.get]
      rw [lookupA_div_go_not_mem t _ _ _ hnd.1, lookupA_setA_self]
      have hcount : countCat ((a :: t).take 1)
          (a.category.getD "unknown") = 1 := by
        simp [countCat]
      rw [hcount]
      simp
    | succ i =>
      have hi' : i < t.length := by simpa using hi
      have hget : (a :: t).get ⟨i + 1, hi⟩ = t.get ⟨i, hi'⟩ := rfl
      simp only [div_go, hget]
      rw [ih _ _ hnd.2 i hi']
      have hcats : (if (t.get ⟨i, hi'⟩).category.getD "unknown" =
            a.category.getD "unknown" then
            counts ((t.get ⟨i, hi'⟩).category.getD "unknown") + 1
          else counts ((t.get ⟨i, hi'⟩).category.getD "unknown")) +
          countCat (t.take (i + 1)) ((t.get ⟨i, hi'⟩).category.getD "unknown") =
          counts ((t.get ⟨i, hi'⟩).category.getD "unknown") +
          countCat ((a :: t).take (i + 1 + 1))
            ((t.get ⟨i, hi'⟩).category.getD "unknown") := by
        by_cases hc : (t.get ⟨i, hi'⟩).category.getD "unknown" =
            a.category.getD "unknown"
        · rw [if_pos hc]
          have hcs : a.category.getD "unknown" =
              (t.get ⟨i, hi'⟩).category.getD "unknown" := hc.symm
          simp only [List.get_eq_getElem] at hcs
          have heq : countCat ((a :: t).take (i + 1 + 1))
              ((t.get ⟨i, hi'⟩).category.getD "unknown") =
              countCat (t.take (i + 1))
                ((t.get ⟨i, hi'⟩).category.getD "unknown") + 1 := by
            simp [countCat, List.take, List.filter_cons, hcs]
          rw [heq]; omega
        · rw [if_neg hc]
          have hcs : ¬ (a.category.getD "unknown" =
              (t.get ⟨i, hi'⟩).category.getD "unknown") := fun h => hc h.symm
          simp only [List.get_eq_getElem] at hcs
          have heq : countCat ((a :: t).take (i + 1 + 1))
              ((t.get ⟨i, hi'⟩).category.getD "unknown") =
              countCat (t.take (i + 1))
                ((t.get ⟨i, hi'⟩).category.getD "unknown") := by
            simp [countCat, List.take, List.filter_cons, hcs]
          rw [heq]
      rw [← hcats]

end Helpers

/-- C2: for every non-empty candidate list, `normalize_scores` writes
`(score - min) / (max - min)` into `score_normalized`, so the minimum score
maps to 0 and the maximum to 1; when the maximum equals the minimum every
candidate's normalized score is 1. -/
theorem normalize_scores_minmax (cs : List Candidate) (hne : cs ≠ []) :
    (listMax (cs.map (fun c => c.score)) = listMin (cs.map (fun c => c.score)) →
      ∀ c ∈ normalize_scores cs, c.score_normalized = some 1) ∧
    (listMax (cs.map (fun c => c.score)) ≠ listMin (cs.map (fun c => c.score)) →
      ∀ c ∈ normalize_scores cs,
        c.score_normalized = some ((c.score - listMin (cs.map (fun c => c.score))) /
          (listMax (cs.map (fun c => c.score)) - listMin (cs.map (fun c => c.score)))) ∧
        (c.score = listMin (cs.map (fun c => c.score)) →
          c.score_normalized = some 0) ∧
        (c.score = listMax (cs.map (fun c => c.score)) →
          c.score_normalized = some 1)) := by
  cases cs with
  | nil => exact absurd rfl hne
  | cons a t =>
    constructor
    · intro heq c hc
      simp only [normalize_scores, if_pos heq] at hc
      rcases List.mem_map.mp hc with ⟨c₀, _, rfl⟩
      rfl
    · intro hneq c hc
      simp only [normalize_scores, if_neg hneq] at hc
      rcases List.mem_map.mp hc with ⟨c₀, _, rfl⟩
      refine ⟨rfl, ?_, ?_⟩
      · intro hmin
        show some ((c₀.score - listMin ((a :: t).map (fun c => c.score))) /
          (listMax ((a :: t).map (fun c => c.score)) -
            listMin ((a :: t).map (fun c => c.score)))) = some 0
        have h2 : c₀.score = listMin ((a :: t).map (fun c => c.score)) := hmin
        rw [h2, sub_self, zero_div]
      · intro hmax
        show some ((c₀.score - listMin ((a :: t).map (fun c => c.score))) /
          (listMax ((a :: t).map (fun c => c.score)) -
            listMin ((a :: t).map (fun c => c.score)))) = some 1
        have h2 : c₀.score = listMax ((a :: t).map (fun c => c.score)) := hmax
        rw [h2, div_self (sub_ne_zero.mpr hneq)]

/-- Closed instance of `normalize_scores_minmax` at a two-candidate list
with scores 2 and 4. -/
theorem normalize_scores_minmax_witness :
    ([({ product_id := 1, score := 2 } : Candidate),
      ({ product_id := 2, score := 4 } : Candidate)] ≠ []) ∧
    (listMax ([({ product_id := 1, score := 2 } : Candidate),
        ({ product_id := 2, score := 4 } : Candidate)].map (fun c => c.score)) =
      listMin ([({ product_id := 1, score := 2 } : Candidate),
        ({ product_id := 2, score := 4 } : Candidate)].map (fun c => c.score)) →
      ∀ c ∈ normalize_scores [({ product_id := 1, score := 2 } : Candidate),
        ({ product_id := 2, score := 4 } : Candidate)],
        c.score_normalized = some 1) ∧
    (listMax ([({ product_id := 1, score := 2 } : Candidate),
        ({ product_id := 2, score := 4 } : Candidate)].map (fun c => c.score)) ≠
      listMin ([({ product_id := 1, score := 2 } : Candidate),
        ({ product_id := 2, score := 4 } : Candidate)].map (fun c => c.score)) →
      ∀ c ∈ normalize_scores [({ product_id := 1, score := 2 } : Candidate),
        ({ product_id := 2, score := 4 } : Candidate)],
        c.score_normalized = some ((c.score -
          listMin ([({ product_id := 1, score := 2 } : Candidate),
            ({ product_id := 2, score := 4 } : Candidate)].map (fun c => c.score))) /
          (listMax ([({ product_id := 1, score := 2 } : Candidate),
            ({ product_id := 2, score := 4 } : Candidate)].map (fun c => c.score)) -
           listMin ([({ product_id := 1, score := 2 } : Candidate),
            ({ product_id := 2, score := 4 } : Candidate)].map (fun c => c.score)))) ∧
        (c.score = listMin ([({ product_id := 1, score := 2 } : Candidate),
            ({ product_id := 2, score := 4 } : Candidate)].map (fun c => c.score)) →
          c.score_normalized = some 0) ∧
        (c.score = listMax ([({ product_id := 1, score := 2 } : Candidate),
            ({ product_id := 2, score := 4 } : Candidate)].map (fun c => c.score)) →
          c.score_normalized = some 1)) :=
  ⟨by decide, (normalize_scores_minmax _ (by decide)).1,
    (normalize_scores_minmax _ (by decide)).2⟩

/-- C9: `normalize_scores` preserves length, membership, order and every
field of every candidate except `score_normalized`; in particular the raw
`score` field is unchanged. -/
theorem normalize_scores_frame (cs : List Candidate) :
    (normalize_scores cs).map eraseNormalized = cs.map eraseNormalized ∧
    (normalize_scores cs).length = cs.length ∧
    (normalize_scores cs).map (fun c => c.score) = cs.map (fun c => c.score) ∧
    (normalize_scores cs).map (fun c => c.product_id) =
      cs.map (fun c => c.product_id) := by
  cases cs with
  | nil => exact ⟨rfl, rfl, rfl, rfl⟩
  | cons a t =>
    simp only [normalize_scores]
    split
    · simp [eraseNormalized, List.map_map, Function.comp]
    · simp [eraseNormalized, List.map_map, Function.comp]

/-- C7 counterexample: a pool whose only candidate has popularity 0 has
maximum popularity 0, yet `calculate_novelty_bonus` assigns it bonus 0.5,
not the 0 the claim states. -/
theorem calculate_novelty_bonus_counterexample :
    listMax ([({ product_id := 1, popularity_score := 0 } : Candidate)].map
      (fun c => c.popularity_score)) = 0 ∧
    lookupA (calculate_novelty_bonus
      [({ product_id := 1, popularity_score := 0 } : Candidate)]) 1 =
      some (1 / 2) ∧
    ((1 : ℚ) / 2) ≠ 0 := by
  refine ⟨by norm_num [listMax], ?_, by norm_num⟩
  norm_num [calculate_novelty_bonus, listMax, lookupA, setA, List.find?]

/-- C7 amended: for a pool with distinct product ids, every candidate's
novelty bonus is `1 - popularity / max_popularity` when the pool's maximum
popularity is positive and `0.5` (not 0) when it is zero; only an empty
pool contributes nothing (an empty bonus dict). -/
theorem calculate_novelty_bonus_spec (cs : List Candidate)
    (hnd : (cs.map (fun c => c.product_id)).Nodup) :
    calculate_novelty_bonus ([] : List Candidate) = [] ∧
    ∀ c ∈ cs,
      lookupA (calculate_novelty_bonus cs) c.product_id =
        some (if 0 < listMax (cs.map (fun x => x.popularity_score)) then
          1 - c.popularity_score / listMax (cs.map (fun x => x.popularity_score))
        else 1 / 2) := by
  refine ⟨rfl, ?_⟩
  intro c hc
  cases cs with
  | nil => cases hc
  | cons a t =>
    simp only [calculate_novelty_bonus]
    exact lookupA_foldl_setA (fun x => x.product_id)
      (fun x => if 0 < listMax ((a :: t).map (fun x => x.popularity_score)) then
        1 - x.popularity_score / listMax ((a :: t).map (fun x => x.popularity_score))
        else 1 / 2) (a :: t) [] hnd hc

/-- Closed instance of `calculate_novelty_bonus_spec` at a two-candidate
pool with popularities 2 and 4. -/
theorem calculate_novelty_bonus_spec_witness :
    (([({ product_id := 1, popularity_score := 2 } : Candidate),
       ({ product_id := 2, popularity_score := 4 } : Candidate)].map
        (fun c => c.product_id)).Nodup) ∧
    (calculate_novelty_bonus ([] : List Candidate) = [] ∧
     ∀ c ∈ [({ product_id := 1, popularity_score := 2 } : Candidate),
            ({ product_id := 2, popularity_score := 4 } : Candidate)],
      lookupA (calculate_novelty_bonus
          [({ product_id := 1, popularity_score := 2 } : Candidate),
           ({ product_id := 2, popularity_score := 4 } : Candidate)]) c.product_id =
        some (if 0 < listMax ([({ product_id := 1, popularity_score := 2 } : Candidate),
              ({ product_id := 2, popularity_score := 4 } : Candidate)].map
                (fun x => x.popularity_score)) then
          1 - c.popularity_score /
            listMax ([({ product_id := 1, popularity_score := 2 } : Candidate),
              ({ product_id := 2, popularity_score := 4 } : Candidate)].map
                (fun x => x.popularity_score))
        else 1 / 2)) :=
  ⟨by decide, calculate_novelty_bonus_spec _ (by decide)⟩

theorem countCat_take_mono (l : List Candidate) (cat : String) {i j : Nat}
    (hij : i ≤ j) : countCat (l.take i) cat ≤ countCat (l.take j) cat := by
  have h1 : l.take i = (l.take j).take i := by
    rw [List.take_take, min_eq_left hij]
  rw [h1]
  exact List.Sublist.length_le
    (List.Sublist.filter _ (List.take_sublist _ _))

/-- C8 counterexample: with `top_k = 1` and a pool of three candidates of
one category, only the first two pool items (the `top_k * 2` window) get a
penalty; the third item's penalty is the default 0, which both breaks the
claimed formula `min(3 * 0.1, 0.5) = 0.3` and decreases below the second
item's penalty 0.2. -/
theorem calculate_diversity_penalty_counterexample :
    calculate_diversity_penalty
      [({ product_id := 1, category := some "x" } : Candidate),
       ({ product_id := 2, category := some "x" } : Candidate),
       ({ product_id := 3, category := some "x" } : Candidate)] 1 =
      [(1, 1 / 10), (2, 1 / 5)] ∧
    (lookupA (calculate_diversity_penalty
      [({ product_id := 1, category := some "x" } : Candidate),
       ({ product_id := 2, category := some "x" } : Candidate),
       ({ product_id := 3, category := some "x" } : Candidate)] 1) 3).getD 0 = 0 ∧
    ¬ ((lookupA (calculate_diversity_penalty
      [({ product_id := 1, category := some "x" } : Candidate),
       ({ product_id := 2, category := some "x" } : Candidate),
       ({ product_id := 3, category := some "x" } : Candidate)] 1) 3).getD 0 =
        min ((3 : ℚ) * (1 / 10)) (1 / 2)) ∧
    (lookupA (calculate_diversity_penalty
      [({ product_id := 1, category := some "x" } : Candidate),
       ({ product_id := 2, category := some "x" } : Candidate),
       ({ product_id := 3, category := some "x" } : Candidate)] 1) 3).getD 0 <
      (lookupA (calculate_diversity_penalty
      [({ product_id := 1, category := some "x" } : Candidate),
       ({ product_id := 2, category := some "x" } : Candidate),
       ({ product_id := 3, category := some "x" } : Candidate)] 1) 2).getD 0 := by
  refine ⟨?_, ?_, ?_, ?_⟩ <;>
    norm_num [calculate_diversity_penalty, div_go, setA, lookupA,
      List.find?, List.take, show ((1 : Int) == 3) = false from rfl,
      show ((2 : Int) == 3) = false from rfl,
      show ((1 : Int) == 2) = false from rfl]

/-- C8 amended: for a pool with distinct product ids, the penalty formula
`min(occurrence_count_so_far * 0.1, 0.5)` holds for the items of the first
`top_k * 2` pool positions only; items outside that window receive no
penalty entry (read back as 0); within the window the penalty of
same-category items is non-decreasing in pool position. -/
theorem calculate_diversity_penalty_spec (cs : List Candidate) (k : Nat)
    (hnd : (cs.map (fun c => c.product_id)).Nodup) :
    (∀ i (hi : i < (cs.take (k * 2)).length),
      lookupA (calculate_diversity_penalty cs k)
          ((cs.take (k * 2)).get ⟨i, hi⟩).product_id =
        some (min ((countCat ((cs.take (k * 2)).take (i + 1))
            (((cs.take (k * 2)).get ⟨i, hi⟩).category.getD "unknown") : ℚ) *
            (1 / 10)) (1 / 2))) ∧
    (∀ pid : Int, pid ∉ (cs.take (k * 2)).map (fun c => c.product_id) →
      lookupA (calculate_diversity_penalty cs k) pid = none) ∧
    (∀ i j (hi : i < (cs.take (k * 2)).length)
        (hj : j < (cs.take (k * 2)).length), i ≤ j →
      ((cs.take (k * 2)).get ⟨i, hi⟩).category.getD "unknown" =
        ((cs.take (k * 2)).get ⟨j, hj⟩).category.getD "unknown" →
      (lookupA (calculate_diversity_penalty cs k)
        ((cs.take (k * 2)).get ⟨i, hi⟩).product_id).getD 0 ≤
      (lookupA (calculate_diversity_penalty cs k)
        ((cs.take (k * 2)).get ⟨j, hj⟩).product_id).getD 0) := by
  have hnd' : ((cs.take (k * 2)).map (fun c => c.product_id)).Nodup := by
    have h1 : (cs.take (k * 2)).map (fun c => c.product_id) =
        (cs.map (fun c => c.product_id)).take (k * 2) := by
      rw [List.map_take]
    rw [h1]
    exact List.Nodup.sublist (List.take_sublist _ _) hnd
  have key : ∀ i (hi : i < (cs.take (k * 2)).length),
      lookupA (calculate_diversity_penalty cs k)
          ((cs.take (k * 2)).get ⟨i, hi⟩).product_id =
        some (min ((countCat ((cs.take (k * 2)).take (i + 1))
            (((cs.take (k * 2)).get ⟨i, hi⟩).category.getD "unknown") : ℚ) *
            (1 / 10)) (1 / 2)) := by
    intro i hi
    have h := lookupA_div_go (cs.take (k * 2)) (fun _ => 0) [] hnd' i hi
    simpa [calculate_diversity_penalty] using h
  refine ⟨key, ?_, ?_⟩
  · intro pid hpid
    have h := lookupA_div_go_not_mem (cs.take (k * 2)) (fun _ => 0) [] pid hpid
    simpa [calculate_diversity_penalty, lookupA] using h
  · intro i j hi hj hij hcat
    rw [key i hi, key j hj, hcat]
    simp only [Option.getD_some]
    refine min_le_min ?_ (le_refl _)
    refine mul_le_mul_of_nonneg_right ?_ (by norm_num)
    exact_mod_cast countCat_take_mono (cs.take (k * 2)) _ (Nat.succ_le_succ hij)

/-- Closed instance of `calculate_diversity_penalty_spec` at a concrete
two-category pool with `top_k = 2`. -/
theorem calculate_diversity_penalty_spec_witness :
    (([({ product_id := 1, category := some "x" } : Candidate),
       ({ product_id := 2, category := some "y" } : Candidate),
       ({ product_id := 3, category := some "x" } : Candidate)].map
        (fun c => c.product_id)).Nodup) ∧
    (∀ i (hi : i < ([({ product_id := 1, category := some "x" } : Candidate),
        ({ product_id := 2, category := some "y" } : Candidate),
        ({ product_id := 3, category := some "x" } : Candidate)].take (2 * 2)).length),
      lookupA (calculate_diversity_penalty
          [({ product_id := 1, category := some "x" } : Candidate),
           ({ product_id := 2, category := some "y" } : Candidate),
           ({ product_id := 3, category := some "x" } : Candidate)] 2)
          (([({ product_id := 1, category := some "x" } : Candidate),
             ({ product_id := 2, category := some "y" } : Candidate),
             ({ product_id := 3, category := some "x" } : Candidate)].take
              (2 * 2)).get ⟨i, hi⟩).product_id =
        some (min ((countCat (([({ product_id := 1, category := some "x" } : Candidate),
            ({ product_id := 2, category := some "y" } : Candidate),
            ({ product_id := 3, category := some "x" } : Candidate)].take
              (2 * 2)).take (i + 1))
            ((([({ product_id := 1, category := some "x" } : Candidate),
               ({ product_id := 2, category := some "y" } : Candidate),
               ({ product_id := 3, category := some "x" } : Candidate)].take
                (2 * 2)).get ⟨i, hi⟩).category.getD "unknown") : ℚ) *
            (1 / 10)) (1 / 2))) :=
  ⟨by decide, (calculate_diversity_penalty_spec _ 2 (by decide)).1⟩

/-- C3 counterexample: two popularity candidates with identical raw
scores, popularities and distinct categories end with identical hybrid
scores, yet the final list keeps the pool insertion order (2 before 1)
instead of the claimed ascending item_id order. -/
theorem merge_and_rerank_tiebreak_counterexample :
    (merge_and_rerank_candidates [] []
      [({ product_id := 2, category := some "a", popularity_score := 5,
          score := 7, source := "popularity" } : Candidate),
       ({ product_id := 1, category := some "b", popularity_score := 5,
          score := 7, source := "popularity" } : Candidate)] [] 2).map
      (fun c => (c.product_id, c.hybrid_score)) =
      [(2, 699 / 1000), (1, 699 / 1000)] ∧
    ¬ ((merge_and_rerank_candidates [] []
      [({ product_id := 2, category := some "a", popularity_score := 5,
          score := 7, source := "popularity" } : Candidate),
       ({ product_id := 1, category := some "b", popularity_score := 5,
          score := 7, source := "popularity" } : Candidate)] [] 2).map
      (fun c => c.product_id) = [1, 2]) := by
  constructor <;>
    norm_num [merge_and_rerank_candidates, merged_pool, normalize_scores,
      add_cf_entries, add_cb_entries, add_pop_entries,
      calculate_diversity_penalty, div_go, calculate_novelty_bonus,
      calculate_price_penalty, lookupA, setA, sortByD, insertByD,
      listMax, listMin, w_cf, w_cb, w_pop, lambda_div, beta_nov,
      gamma_price, List.find?, min_def,
      show ((2 : Int) == 1) = false from rfl,
      show ((1 : Int) == 2) = false from rfl,
      show ¬ (("b" : String) = "a") from by decide,
      show ¬ (("a" : String) = "b") from by decide]

/-- C3 amended: `merge_and_rerank_candidates` is a pure function of its
inputs (deterministic by construction), its output is sorted descending by
hybrid score, and candidates of equal hybrid score keep the merged pool's
insertion order — the sort is stable, there is no ascending item_id
tie-break. -/
theorem merge_and_rerank_sorted_stable (cf_candidates cb_candidates
    pop_candidates : List Candidate) (user_history : List Interaction)
    (k : Nat) :
    sortedD (fun c => c.hybrid_score)
      (merge_and_rerank_candidates cf_candidates cb_candidates
        pop_candidates user_history k) ∧
    ∀ q : ℚ, (sortByD (fun c => c.hybrid_score)
        (merged_pool cf_candidates cb_candidates pop_candidates
          user_history k)).filter (fun c => decide (c.hybrid_score = q)) =
      (merged_pool cf_candidates cb_candidates pop_candidates
        user_history k).filter (fun c => decide (c.hybrid_score = q)) := by
  constructor
  · exact List.Pairwise.sublist (List.take_sublist _ _)
      (@sorted_sortByD Candidate (fun c => c.hybrid_score)
        (merged_pool cf_candidates cb_candidates pop_candidates
          user_history k))
  · intro q
    exact filter_sortByD q _

theorem pop_branch_mem (feats : List Feature) (q : Feature → Bool)
    (keyf scoref : Feature → ℚ) (limit : Nat) {c : Candidate}
    (hq : ∀ f, q f = true → popularity_pos f = true ∧ f.is_active = true)
    (hc : c ∈ ((sortByD keyf (feats.filter q)).take limit).map
      (fun f => mkPopCand f (scoref f))) :
    0 < c.popularity_score ∧
    ∃ f ∈ feats, f.product_id = c.product_id ∧ f.is_active = true ∧
      f.popularity_30d = some c.popularity_score := by
  rcases List.mem_map.mp hc with ⟨f, hf, rfl⟩
  have hf2 := mem_sortByD.mp (List.mem_of_mem_take hf)
  have hf3 := List.mem_filter.mp hf2
  rcases hq f hf3.2 with ⟨hpos, hact⟩
  rcases hp : f.popularity_30d with _ | p
  · rw [popularity_pos, hp] at hpos
    cases hpos
  · rw [popularity_pos, hp] at hpos
    have hplt : 0 < p := of_decide_eq_true hpos
    refine ⟨?_, f, hf3.1, rfl, hact, ?_⟩
    · show 0 < (mkPopCand f (scoref f)).popularity_score
      show 0 < f.popularity_30d.getD 0
      rw [hp]
      exact hplt
    · show f.popularity_30d = some (mkPopCand f (scoref f)).popularity_score
      show f.popularity_30d = some (f.popularity_30d.getD 0)
      rw [hp]
      rfl

/-- C10: every popularity candidate stems from an active catalog row with
`popularity_30d > 0`, its `popularity_score` is that positive value, and a
non-empty popularity list therefore has a strictly positive maximum
popularity. -/
theorem get_popularity_candidates_active_positive (db : DB) (user_id : Int)
    (limit : Nat) :
    (∀ c ∈ get_popularity_candidates db user_id limit,
      0 < c.popularity_score ∧
      ∃ f ∈ db.features, f.product_id = c.product_id ∧ f.is_active = true ∧
        f.popularity_30d = some c.popularity_score) ∧
    (get_popularity_candidates db user_id limit ≠ [] →
      0 < listMax ((get_popularity_candidates db user_id limit).map
        (fun c => c.popularity_score))) := by
  have key : ∀ c ∈ get_popularity_candidates db user_id limit,
      0 < c.popularity_score ∧
      ∃ f ∈ db.features, f.product_id = c.product_id ∧ f.is_active = true ∧
        f.popularity_30d = some c.popularity_score := by
    intro c hc
    simp only [get_popularity_candidates] at hc
    split at hc
    · simp only [List.isEmpty_nil, if_true] at hc
      refine pop_branch_mem db.features _ _ _ limit ?_ hc
      intro f hf
      simp only [Bool.and_eq_true] at hf
      exact ⟨hf.2, hf.1⟩
    · split at hc
      · refine pop_branch_mem db.features _ _ _ limit ?_ hc
        intro f hf
        simp only [Bool.and_eq_true] at hf
        exact ⟨hf.2, hf.1⟩
      · refine pop_branch_mem db.features _ _ _ limit ?_ hc
        intro f hf
        simp only [Bool.and_eq_true] at hf
        exact ⟨hf.1.2, hf.1.1⟩
  refine ⟨key, ?_⟩
  intro hne
  rcases List.exists_mem_of_ne_nil _ hne with ⟨c, hc⟩
  have h1 := (key c hc).1
  exact lt_of_lt_of_le h1 (le_listMax (List.mem_map_of_mem _ hc))

/-- Closed instance of `get_popularity_candidates_active_positive` at a
one-item catalog with popularity 5. -/
theorem get_popularity_candidates_active_positive_witness :
    (get_popularity_candidates dbPopW 1 10 ≠ []) ∧
    0 < listMax ((get_popularity_candidates dbPopW 1 10).map
      (fun c => c.popularity_score)) := by
  have hne : get_popularity_candidates dbPopW 1 10 ≠ [] := by
    norm_num [get_popularity_candidates, get_user_purchase_history, dbPopW,
      user_categories_of, popularity_pos, sortByD, insertByD, mkPopCand]
  exact ⟨hne, (get_popularity_candidates_active_positive dbPopW 1 10).2 hne⟩

theorem mem_take_top {minS : ℚ} {s : Nat → ℚ} :
    ∀ {fuel : Nat} {l : List Nat} {j : Nat},
      j ∈ take_top minS s fuel l → j ∈ l ∧ minS ≤ s j := by
  intro fuel l
  induction l generalizing fuel with
  | nil =>
    intro j hj
    simp only [take_top] at hj
    cases hj
  | cons a rest ih =>
    intro j hj
    match fuel with
    | 0 =>
      simp only [take_top] at hj
      cases hj
    | fuel + 1 =>
      simp only [take_top] at hj
      by_cases hs : s a < minS
      · rw [if_pos hs] at hj
        rcases ih hj with ⟨h1, h2⟩
        exact ⟨List.mem_cons_of_mem _ h1, h2⟩
      · rw [if_neg hs] at hj
        rcases List.mem_cons.mp hj with rfl | hj'
        · exact ⟨List.mem_cons_self _ _, le_of_not_lt hs⟩
        · rcases ih hj' with ⟨h1, h2⟩
          exact ⟨List.mem_cons_of_mem _ h1, h2⟩

theorem length_take_top {minS : ℚ} {s : Nat → ℚ} :
    ∀ {fuel : Nat} {l : List Nat}, (take_top minS s fuel l).length ≤ fuel := by
  intro fuel l
  induction l generalizing fuel with
  | nil =>
    simp [take_top]
  | cons a rest ih =>
    match fuel with
    | 0 => simp [take_top]
    | fuel + 1 =>
      simp only [take_top]
      by_cases hs : s a < minS
      · rw [if_pos hs]
        exact ih
      · rw [if_neg hs]
        simpa using Nat.succ_le_succ ih

theorem mem_take_top_cf {minS : ℚ} {minCo : Nat} {s : Nat → ℚ}
    {co : Nat → Nat} :
    ∀ {fuel : Nat} {l : List Nat} {j : Nat},
      j ∈ take_top_cf minS minCo s co fuel l →
        j ∈ l ∧ minS ≤ s j ∧ minCo ≤ co j := by
  intro fuel l
  induction l generalizing fuel with
  | nil =>
    intro j hj
    simp only [take_top_cf] at hj
    cases hj
  | cons a rest ih =>
    intro j hj
    match fuel with
    | 0 =>
      simp only [take_top_cf] at hj
      cases hj
    | fuel + 1 =>
      simp only [take_top_cf] at hj
      by_cases hs : s a < minS
      · rw [if_pos hs] at hj
        rcases ih hj with ⟨h1, h2⟩
        exact ⟨List.mem_cons_of_mem _ h1, h2⟩
      · rw [if_neg hs] at hj
        by_cases hco : co a < minCo
        · rw [if_pos hco] at hj
          rcases ih hj with ⟨h1, h2⟩
          exact ⟨List.mem_cons_of_mem _ h1, h2⟩
        · rw [if_neg hco] at hj
          rcases List.mem_cons.mp hj with rfl | hj'
          · exact ⟨List.mem_cons_self _ _, le_of_not_lt hs, le_of_not_lt hco⟩
          · rcases ih hj' with ⟨h1, h2⟩
            exact ⟨List.mem_cons_of_mem _ h1, h2⟩

theorem length_take_top_cf {minS : ℚ} {minCo : Nat} {s : Nat → ℚ}
    {co : Nat → Nat} :
    ∀ {fuel : Nat} {l : List Nat},
      (take_top_cf minS minCo s co fuel l).length ≤ fuel := by
  intro fuel l
  induction l generalizing fuel with
  | nil =>
    simp [take_top_cf]
  | cons a rest ih =>
    match fuel with
    | 0 => simp [take_top_cf]
    | fuel + 1 =>
      simp only [take_top_cf]
      by_cases hs : s a < minS
      · rw [if_pos hs]
        exact ih
      · rw [if_neg hs]
        by_cases hco : co a < minCo
        · rw [if_pos hco]
          exact ih
        · rw [if_neg hco]
          simpa using Nat.succ_le_succ ih

theorem filter_flatMap_length_le {E : Type} (idOf : Nat → Int)
    (g : Nat → List E) (key : E → Int) (K : Nat) (p : Int) :
    ∀ (l : List Nat), List.Pairwise (fun a b => idOf a ≠ idOf b) l →
      (∀ i ∈ l, ∀ e ∈ g i, key e = idOf i) →
      (∀ i ∈ l, (g i).length ≤ K) →
      ((l.flatMap g).filter (fun e => key e == p)).length ≤ K := by
  intro l
  induction l with
  | nil =>
    intro _ _ _
    simp
  | cons a t ih =>
    intro hpw hkey hlen
    rw [List.flatMap_cons, List.filter_append, List.length_append]
    rcases List.pairwise_cons.mp hpw with ⟨hab, hpw'⟩
    by_cases hp : idOf a = p
    · have h2 : ((t.flatMap g).filter (fun e => key e == p)).length = 0 := by
        rw [List.length_eq_zero]
        apply List.filter_eq_nil_iff.mpr
        intro e he
        rcases List.mem_flatMap.mp he with ⟨i, hi, hei⟩
        have hk : key e = idOf i := hkey i (List.mem_cons_of_mem _ hi) e hei
        have hne : ¬ (key e = p) := by
          rw [hk]
          intro h
          exact hab i hi (hp.trans h.symm)
        simp [hne]
      rw [h2]
      have h1 : ((g a).filter (fun e => key e == p)).length ≤ (g a).length :=
        List.length_filter_le _ _
      have h3 := hlen a (List.mem_cons_self _ _)
      omega
    · have h1 : (g a).filter (fun e => key e == p) = [] := by
        apply List.filter_eq_nil_iff.mpr
        intro e he
        have hk : key e = idOf a := hkey a (List.mem_cons_self _ _) e he
        simp [hk, hp]
      rw [h1]
      simpa using ih hpw' (fun i hi => hkey i (List.mem_cons_of_mem _ hi))
        (fun i hi => hlen i (List.mem_cons_of_mem _ hi))

/-- C6: for every similarity matrix, co-user count function and injective
index-to-id map, both indexers emit only edges whose target differs from
the source, at most 50 outgoing edges per source item, and every
collaborative edge carries a co-user count of at least 5. -/
theorem indexer_edge_invariants (n : Nat) (sim : Nat → Nat → ℚ)
    (co : Nat → Nat → Nat) (idOf : Nat → Int)
    (hinj : ∀ a ∈ List.range n, ∀ b ∈ List.range n, idOf a = idOf b → a = b) :
    (∀ e ∈ extract_top_similar n sim idOf,
      e.product_id ≠ e.similar_product_id) ∧
    (∀ p : Int, ((extract_top_similar n sim idOf).filter
      (fun e => e.product_id == p)).length ≤ 50) ∧
    (∀ e ∈ compute_item_similarities n sim co idOf,
      e.product_id ≠ e.similar_product_id) ∧
    (∀ p : Int, ((compute_item_similarities n sim co idOf).filter
      (fun e => e.product_id == p)).length ≤ 50) ∧
    (∀ e ∈ compute_item_similarities n sim co idOf, 5 ≤ e.co_users) := by
  have hpw : List.Pairwise (fun a b => idOf a ≠ idOf b) (List.range n) := by
    refine (List.pairwise_lt_range n).imp_of_mem ?_
    intro a b ha hb hlt heq
    exact absurd (hinj a ha b hb heq) (ne_of_lt hlt)
  refine ⟨?_, ?_, ?_, ?_, ?_⟩
  · intro e he
    simp only [extract_top_similar] at he
    rcases List.mem_flatMap.mp he with ⟨i, hi, hei⟩
    rcases List.mem_map.mp hei with ⟨j, hj, rfl⟩
    rcases mem_take_top hj with ⟨hj1, hj2⟩
    have hjr : j ∈ List.range n := mem_sortByD.mp hj1
    intro heq
    have heq2 : idOf i = idOf j := heq
    have hij : i = j := hinj i hi j hjr heq2
    rw [← hij] at hj2
    rw [eff_score, if_pos rfl] at hj2
    norm_num [indexer_min_sim] at hj2
  · intro p
    simp only [extract_top_similar]
    refine filter_flatMap_length_le idOf _
      (fun e : ContentEdge => e.product_id) 50 p (List.range n) hpw ?_ ?_
    · intro i _ e he
      rcases List.mem_map.mp he with ⟨j, _, rfl⟩
      rfl
    · intro i _
      rw [List.length_map]
      exact length_take_top
  · intro e he
    simp only [compute_item_similarities] at he
    rcases List.mem_flatMap.mp he with ⟨i, hi, hei⟩
    rcases List.mem_map.mp hei with ⟨j, hj, rfl⟩
    rcases mem_take_top_cf hj with ⟨hj1, hj2, _⟩
    have hjr : j ∈ List.range n := mem_sortByD.mp hj1
    intro heq
    have heq2 : idOf i = idOf j := heq
    have hij : i = j := hinj i hi j hjr heq2
    rw [← hij] at hj2
    rw [eff_score, if_pos rfl] at hj2
    norm_num [indexer_min_sim] at hj2
  · intro p
    simp only [compute_item_similarities]
    refine filter_flatMap_length_le idOf _
      (fun e : CFEdge => e.product_id) 50 p (List.range n) hpw ?_ ?_
    · intro i _ e he
      rcases List.mem_map.mp he with ⟨j, _, rfl⟩
      rfl
    · intro i _
      rw [List.length_map]
      exact length_take_top_cf
  · intro e he
    simp only [compute_item_similarities] at he
    rcases List.mem_flatMap.mp he with ⟨i, _, hei⟩
    rcases List.mem_map.mp hei with ⟨j, hj, rfl⟩
    exact (mem_take_top_cf hj).2.2

/-- Closed instance of `indexer_edge_invariants` for two items with the
identity index-to-id map. -/
theorem indexer_edge_invariants_witness :
    (∀ a ∈ List.range 2, ∀ b ∈ List.range 2,
      ((a : Int) = (b : Int)) → a = b) ∧
    ((∀ e ∈ extract_top_similar 2 (fun _ _ => 1) (fun i => (i : Int)),
      e.product_id ≠ e.similar_product_id) ∧
    (∀ p : Int, ((extract_top_similar 2 (fun _ _ => 1)
        (fun i => (i : Int))).filter
      (fun e => e.product_id == p)).length ≤ 50) ∧
    (∀ e ∈ compute_item_similarities 2 (fun _ _ => 1) (fun _ _ => 10)
        (fun i => (i : Int)),
      e.product_id ≠ e.similar_product_id) ∧
    (∀ p : Int, ((compute_item_similarities 2 (fun _ _ => 1) (fun _ _ => 10)
        (fun i => (i : Int))).filter
      (fun e => e.product_id == p)).length ≤ 50) ∧
    (∀ e ∈ compute_item_similarities 2 (fun _ _ => 1) (fun _ _ => 10)
        (fun i => (i : Int)), 5 ≤ e.co_users)) :=
  ⟨by decide, indexer_edge_invariants 2 (fun _ _ => 1) (fun _ _ => 10)
    (fun i => (i : Int)) (by decide)⟩

theorem lookupA_eq_none_iff {β : Type} {d : List (Int × β)} {k : Int} :
    lookupA d k = none ↔ ∀ p ∈ d, p.1 ≠ k := by
  unfold lookupA
  rw [Option.map_eq_none', List.find?_eq_none]
  constructor
  · intro h p hp
    have := h p hp
    simpa using this
  · intro h p hp
    simpa using h p hp

theorem mem_setA {β : Type} {d : List (Int × β)} {k : Int} {v : β}
    {x : Int × β} (hx : x ∈ setA d k v) : x = (k, v) ∨ x ∈ d := by
  induction d with
  | nil =>
    simp only [setA] at hx
    rcases List.mem_singleton.mp hx with rfl
    exact Or.inl rfl
  | cons p t ih =>
    rw [setA] at hx
    by_cases h : p.1 = k
    · rw [if_pos h] at hx
      rcases List.mem_cons.mp hx with rfl | hx'
      · exact Or.inl rfl
      · exact Or.inr (List.mem_cons_of_mem _ hx')
    · rw [if_neg h] at hx
      rcases List.mem_cons.mp hx with rfl | hx'
      · exact Or.inr (List.mem_cons_self _ _)
      · rcases ih hx' with h1 | h1
        · exact Or.inl h1
        · exact Or.inr (List.mem_cons_of_mem _ h1)

theorem keys_setA_of_mem {β : Type} {d : List (Int × β)} {k : Int} (v : β)
    (hk : ¬ lookupA d k = none) :
    (setA d k v).map Prod.fst = d.map Prod.fst := by
  induction d with
  | nil => simp [lookupA] at hk
  | cons p t ih =>
    rw [setA]
    by_cases h : p.1 = k
    · rw [if_pos h]
      simp [h]
    · rw [if_neg h]
      have hk' : ¬ lookupA t k = none := by
        intro hnone
        apply hk
        unfold lookupA at hnone ⊢
        rw [List.find?_cons_of_neg _ (by simp [h])]
        exact hnone
      simp only [List.map_cons]
      rw [ih hk']

theorem lookupA_append_single_self {β : Type} (d : List (Int × β)) (k : Int)
    (v : β) (h : lookupA d k = none) :
    lookupA (d ++ [(k, v)]) k = some v := by
  unfold lookupA at h ⊢
  rw [Option.map_eq_none'] at h
  rw [List.find?_append, h]
  simp

theorem lookupA_append_single_ne {β : Type} (d : List (Int × β)) {k k' : Int}
    (v : β) (hne : k' ≠ k) :
    lookupA (d ++ [(k, v)]) k' = lookupA d k' := by
  unfold lookupA
  rw [List.find?_append]
  have hnone : List.find? (fun p => p.1 == k') [(k, v)] = none := by
    simp [Ne.symm hne]
  rw [hnone]
  simp

theorem lookupA_updIfBetter_ne (d : List (Int × Candidate)) {k k' : Int}
    (c : Candidate) (hne : k' ≠ k) :
    lookupA (updIfBetter d k c) k' = lookupA d k' := by
  rw [updIfBetter]
  rcases h : lookupA d k with _ | old
  · change lookupA (d ++ [(k, c)]) k' = lookupA d k'
    exact lookupA_append_single_ne d c hne
  · change lookupA (if old.score < c.score then setA d k c else d) k' =
      lookupA d k'
    by_cases hs : old.score < c.score
    · rw [if_pos hs]
      exact lookupA_setA_ne d c hne
    · rw [if_neg hs]

theorem lookupA_updIfBetter_self (d : List (Int × Candidate)) (k : Int)
    (c : Candidate) :
    lookupA (updIfBetter d k c) k =
      match lookupA d k with
      | none => some c
      | some old => if old.score < c.score then some c else some old := by
  rw [updIfBetter]
  rcases h : lookupA d k with _ | old
  · change lookupA (d ++ [(k, c)]) k = some c
    exact lookupA_append_single_self d k c h
  · change lookupA (if old.score < c.score then setA d k c else d) k =
      if old.score < c.score then some c else some old
    by_cases hs : old.score < c.score
    · rw [if_pos hs, if_pos hs]
      exact lookupA_setA_self d k c
    · rw [if_neg hs, if_neg hs]
      exact h

theorem nodupKeysA_updIfBetter {d : List (Int × Candidate)} (k : Int)
    (c : Candidate) (hd : nodupKeysA d) : nodupKeysA (updIfBetter d k c) := by
  rw [updIfBetter]
  rcases h : lookupA d k with _ | old
  · change nodupKeysA (d ++ [(k, c)])
    have hk : ∀ p ∈ d, p.1 ≠ k := lookupA_eq_none_iff.mp h
    unfold nodupKeysA
    rw [List.map_append]
    simp only [List.map_cons, List.map_nil]
    rw [List.nodup_append]
    refine ⟨hd, List.nodup_singleton k, ?_⟩
    intro a ha hb
    rcases List.mem_map.mp ha with ⟨p, hp, rfl⟩
    rcases List.mem_singleton.mp hb
    exact hk p hp rfl
  · change nodupKeysA (if old.score < c.score then setA d k c else d)
    by_cases hs : old.score < c.score
    · rw [if_pos hs]
      unfold nodupKeysA
      rw [keys_setA_of_mem c (by rw [h]; exact fun hx => by cases hx)]
      exact hd
    · rw [if_neg hs]
      exact hd

theorem entries_wf_updIfBetter {d : List (Int × Candidate)} {k : Int}
    {c : Candidate} (hwf : ∀ p ∈ d, (p.2 : Candidate).product_id = p.1)
    (hck : c.product_id = k) :
    ∀ p ∈ updIfBetter d k c, (p.2 : Candidate).product_id = p.1 := by
  intro p hp
  rw [updIfBetter] at hp
  rcases h : lookupA d k with _ | old
  · rw [h] at hp
    have hp2 : p ∈ d ++ [(k, c)] := hp
    rcases List.mem_append.mp hp2 with hp' | hp'
    · exact hwf p hp'
    · rcases List.mem_singleton.mp hp'
      exact hck
  · rw [h] at hp
    have hp2 : p ∈ if old.score < c.score then setA d k c else d := hp
    by_cases hs : old.score < c.score
    · rw [if_pos hs] at hp2
      rcases mem_setA hp2 with rfl | hp'
      · exact hck
      · exact hwf p hp'
    · rw [if_neg hs] at hp2
      exact hwf p hp2

theorem lookupA_of_mem_nodup {β : Type} {d : List (Int × β)} {k : Int}
    {v : β} (hmem : (k, v) ∈ d) (hd : nodupKeysA d) :
    lookupA d k = some v := by
  induction d with
  | nil => cases hmem
  | cons p t ih =>
    unfold nodupKeysA at hd
    rw [List.map_cons, List.nodup_cons] at hd
    rcases List.mem_cons.mp hmem with rfl | hmem'
    · unfold lookupA
      rw [List.find?_cons_of_pos _ (by simp)]
      rfl
    · by_cases h : p.1 = k
      · exfalso
        apply hd.1
        rw [h]
        exact List.mem_map_of_mem Prod.fst hmem'
      · unfold lookupA
        rw [List.find?_cons_of_neg _ (by simp [h])]
        exact ih hmem' hd.2

theorem nodupKeysA_foldUpd {γ : Type} (keyOf : γ → Int)
    (candOf : γ → Candidate) (L : List γ) (d : List (Int × Candidate))
    (hd : nodupKeysA d) :
    nodupKeysA (L.foldl (fun d x => updIfBetter d (keyOf x) (candOf x)) d) := by
  induction L generalizing d with
  | nil => exact hd
  | cons x L ih => exact ih _ (nodupKeysA_updIfBetter _ _ hd)

theorem entries_wf_foldUpd {γ : Type} (keyOf : γ → Int)
    (candOf : γ → Candidate) (L : List γ) (d : List (Int × Candidate))
    (hwf : ∀ p ∈ d, (p.2 : Candidate).product_id = p.1)
    (hkey : ∀ x, (candOf x).product_id = keyOf x) :
    ∀ p ∈ L.foldl (fun d x => updIfBetter d (keyOf x) (candOf x)) d,
      (p.2 : Candidate).product_id = p.1 := by
  induction L generalizing d with
  | nil => exact hwf
  | cons x L ih => exact ih _ (entries_wf_updIfBetter hwf (hkey x))

theorem lookupA_foldUpd_char {γ : Type} (keyOf : γ → Int)
    (candOf : γ → Candidate) (L : List γ) (d : List (Int × Candidate))
    (k : Int) {v : Candidate}
    (hv : lookupA (L.foldl (fun d x => updIfBetter d (keyOf x) (candOf x)) d)
      k = some v) :
    (lookupA d k = some v ∨ ∃ x ∈ L, keyOf x = k ∧ candOf x = v) ∧
    (∀ x ∈ L, keyOf x = k → (candOf x).score ≤ v.score) ∧
    (∀ w, lookupA d k = some w → w.score ≤ v.score) := by
  induction L generalizing d with
  | nil =>
    refine ⟨Or.inl hv, by simp, ?_⟩
    intro w hw
    have h2 : some v = some w := hv.symm.trans hw
    rw [Option.some.inj h2]
  | cons x L ih =>
    rw [List.foldl_cons] at hv
    rcases ih _ hv with ⟨hatt, hdomL, hdomd⟩
    by_cases hk : keyOf x = k
    · subst hk
      rcases hdk : lookupA d (keyOf x) with _ | old
      · have hu2 : lookupA (updIfBetter d (keyOf x) (candOf x)) (keyOf x) =
            some (candOf x) := by
          rw [lookupA_updIfBetter_self d (keyOf x) (candOf x), hdk]
        refine ⟨?_, ?_, ?_⟩
        · rcases hatt with h1 | ⟨y, hy, hky, hcy⟩
          · right
            exact ⟨x, List.mem_cons_self _ _, rfl,
              Option.some.inj (hu2.symm.trans h1)⟩
          · right
            exact ⟨y, List.mem_cons_of_mem _ hy, hky, hcy⟩
        · intro y hy hky
          rcases List.mem_cons.mp hy with rfl | hy'
          · exact hdomd (candOf y) hu2
          · exact hdomL y hy' hky
        · intro w hw
          exact Option.noConfusion hw
      · have hu2 : lookupA (updIfBetter d (keyOf x) (candOf x)) (keyOf x) =
            if old.score < (candOf x).score then some (candOf x)
            else some old := by
          rw [lookupA_updIfBetter_self d (keyOf x) (candOf x), hdk]
        by_cases hs : old.score < (candOf x).score
        · rw [if_pos hs] at hu2
          refine ⟨?_, ?_, ?_⟩
          · rcases hatt with h1 | ⟨y, hy, hky, hcy⟩
            · right
              exact ⟨x, List.mem_cons_self _ _, rfl,
                Option.some.inj (hu2.symm.trans h1)⟩
            · right
              exact ⟨y, List.mem_cons_of_mem _ hy, hky, hcy⟩
          · intro y hy hky
            rcases List.mem_cons.mp hy with rfl | hy'
            · exact hdomd (candOf y) hu2
            · exact hdomL y hy' hky
          · intro w hw
            have hwold : w = old := (Option.some.inj hw).symm
            exact le_trans (le_of_lt (hwold ▸ hs)) (hdomd (candOf x) hu2)
        · rw [if_neg hs] at hu2
          refine ⟨?_, ?_, ?_⟩
          · rcases hatt with h1 | ⟨y, hy, hky, hcy⟩
            · left
              exact hu2.symm.trans h1
            · right
              exact ⟨y, List.mem_cons_of_mem _ hy, hky, hcy⟩
          · intro y hy hky
            rcases List.mem_cons.mp hy with rfl | hy'
            · exact le_trans (le_of_not_lt hs) (hdomd old hu2)
            · exact hdomL y hy' hky
          · intro w hw
            have hwold : w = old := (Option.some.inj hw).symm
            exact hwold ▸ hdomd old hu2
    · have heq := lookupA_updIfBetter_ne d (candOf x)
        (fun h => hk h.symm)
      refine ⟨?_, ?_, ?_⟩
      · rcases hatt with h1 | ⟨y, hy, hky, hcy⟩
        · left
          rw [← heq]
          exact h1
        · right
          exact ⟨y, List.mem_cons_of_mem _ hy, hky, hcy⟩
      · intro y hy hky
        rcases List.mem_cons.mp hy with rfl | hy'
        · exact absurd hky hk
        · exact hdomL y hy' hky
      · intro w hw
        apply hdomd
        rw [heq]
        exact hw

theorem cf_dict_eq_flat (db : DB) (hist : List Interaction)
    (purchased : List Int) (init : List (Int × Candidate)) :
    hist.foldl (fun d h =>
      (cf_seed_rows db h.product_id purchased).foldl
        (fun d r => updIfBetter d r.1.similar_product_id
          (mkCFCand r.1 r.2 (recency_decay_factor ^ h.days_ago))) d) init =
    (hist.flatMap (fun h => (cf_seed_rows db h.product_id purchased).map
        (fun r => (h, r)))).foldl
      (fun d x => updIfBetter d x.2.1.similar_product_id
        (mkCFCand x.2.1 x.2.2 (recency_decay_factor ^ x.1.days_ago))) init := by
  induction hist generalizing init with
  | nil => rfl
  | cons h t ih =>
    rw [List.foldl_cons, List.flatMap_cons, List.foldl_append, List.foldl_map]
    exact ih _

/-- C4 counterexample: with history [product 1 (rank 0, 4 days old),
product 2 (rank 1, 9 days old)] and a single CF edge 1 → 100 of similarity
0.5, the candidate's score is 0.5 * 0.9^4 = 6561/20000, not the
0.5 * 0.9^0 = 0.5 the rank-based claim predicts. -/
theorem cf_recency_weight_counterexample :
    (get_cf_candidates dbRecency 7 100).map (fun c => c.score) =
      [6561 / 20000] ∧
    ¬ ((6561 : ℚ) / 20000 = 1 / 2 * (9 / 10) ^ (0 : Nat)) := by
  constructor
  · norm_num [get_cf_candidates, get_user_purchase_history, dbRecency,
      cf_seed_rows, mkCFCand, sortByD, insertByD, updIfBetter, lookupA,
      setA, recency_decay_factor, cf_min_history, max_user_history,
      List.find?, List.filterMap, beq_iff_eq]
  · norm_num

/-- C4 amended: every candidate returned by `get_cf_candidates` owes its
score to some fetched history item `h` and CF row `r` targeting it, with
score `sim_score * 0.9 ^ days_ago(h)` — the exponent is the interaction's
age in days, not its 0-based recency rank — and that score is maximal over
all (history item, CF row) pairs targeting the same product. -/
theorem get_cf_candidates_score_spec (db : DB) (user_id : Int) (limit : Nat)
    {c : Candidate} (hc : c ∈ get_cf_candidates db user_id limit) :
    (∃ h ∈ get_user_purchase_history db user_id,
      ∃ r ∈ cf_seed_rows db h.product_id
        ((get_user_purchase_history db user_id).map (fun h => h.product_id)),
      r.1.similar_product_id = c.product_id ∧
      c.score = r.1.sim_score * recency_decay_factor ^ h.days_ago) ∧
    (∀ h ∈ get_user_purchase_history db user_id,
      ∀ r ∈ cf_seed_rows db h.product_id
        ((get_user_purchase_history db user_id).map (fun h => h.product_id)),
      r.1.similar_product_id = c.product_id →
      r.1.sim_score * recency_decay_factor ^ h.days_ago ≤ c.score) := by
  simp only [get_cf_candidates] at hc
  by_cases hlen :
      (get_user_purchase_history db user_id).length < cf_min_history
  · rw [if_pos hlen] at hc
    cases hc
  · rw [if_neg hlen] at hc
    have hc2 := mem_sortByD.mp (List.mem_of_mem_take hc)
    rcases List.mem_map.mp hc2 with ⟨p, hp, rfl⟩
    rw [cf_dict_eq_flat] at hp
    have hwf := entries_wf_foldUpd
      (fun x : Interaction × (CFEdge × Feature) =>
        x.2.1.similar_product_id)
      (fun x => mkCFCand x.2.1 x.2.2 (recency_decay_factor ^ x.1.days_ago))
      ((get_user_purchase_history db user_id).flatMap
        (fun h => (cf_seed_rows db h.product_id
          ((get_user_purchase_history db user_id).map
            (fun h => h.product_id))).map (fun r => (h, r)))) []
      (by intro p hp; cases hp) (fun x => rfl)
    have hnd := nodupKeysA_foldUpd
      (fun x : Interaction × (CFEdge × Feature) =>
        x.2.1.similar_product_id)
      (fun x => mkCFCand x.2.1 x.2.2 (recency_decay_factor ^ x.1.days_ago))
      ((get_user_purchase_history db user_id).flatMap
        (fun h => (cf_seed_rows db h.product_id
          ((get_user_purchase_history db user_id).map
            (fun h => h.product_id))).map (fun r => (h, r)))) []
      List.nodup_nil
    have hkc : (p.2 : Candidate).product_id = p.1 := hwf p hp
    have hlk := lookupA_of_mem_nodup hp hnd
    rcases lookupA_foldUpd_char _ _ _ _ p.1 hlk with ⟨hatt, hdom, _⟩
    rcases hatt with h1 | ⟨x, hx, hkx, hcx⟩
    · exact absurd h1 (by simp [lookupA])
    · rcases List.mem_flatMap.mp hx with ⟨h, hh, hxmem⟩
      rcases List.mem_map.mp hxmem with ⟨r, hr, rfl⟩
      constructor
      · refine ⟨h, hh, r, hr, ?_, ?_⟩
        · rw [← hkc] at hkx
          exact hkx
        · rw [← hcx]
          rfl
      · intro h' hh' r' hr' hre
        have hmemx : (h', r') ∈
            (get_user_purchase_history db user_id).flatMap
              (fun h => (cf_seed_rows db h.product_id
                ((get_user_purchase_history db user_id).map
                  (fun h => h.product_id))).map (fun r => (h, r))) :=
          List.mem_flatMap.mpr ⟨h', hh', List.mem_map_of_mem _ hr'⟩
        have hkey' : r'.1.similar_product_id = p.1 := by
          rw [hre]
          exact hkc
        exact hdom (h', r') hmemx hkey'

/-- Closed instance of `get_cf_candidates_score_spec` at the `dbRecency`
database. -/
theorem get_cf_candidates_score_spec_witness :
    ∃ c, c ∈ get_cf_candidates dbRecency 7 100 ∧
    ((∃ h ∈ get_user_purchase_history dbRecency 7,
      ∃ r ∈ cf_seed_rows dbRecency h.product_id
        ((get_user_purchase_history dbRecency 7).map (fun h => h.product_id)),
      r.1.similar_product_id = c.product_id ∧
      c.score = r.1.sim_score * recency_decay_factor ^ h.days_ago) ∧
    (∀ h ∈ get_user_purchase_history dbRecency 7,
      ∀ r ∈ cf_seed_rows dbRecency h.product_id
        ((get_user_purchase_history dbRecency 7).map (fun h => h.product_id)),
      r.1.similar_product_id = c.product_id →
      r.1.sim_score * recency_decay_factor ^ h.days_ago ≤ c.score)) := by
  have hmem : (mkCFCand
      { product_id := 1, similar_product_id := 100, sim_score := 1 / 2,
        co_users := 10 }
      { product_id := 100, title := "", brand := none, category := some "c",
        price_current := 1, popularity_30d := some 1, rating := some 1,
        is_active := true }
      (recency_decay_factor ^ (4 : Nat))) ∈
      get_cf_candidates dbRecency 7 100 := by
    norm_num [get_cf_candidates, get_user_purchase_history, dbRecency,
      cf_seed_rows, mkCFCand, sortByD, insertByD, updIfBetter, lookupA,
      setA, recency_decay_factor, cf_min_history, max_user_history,
      List.find?, List.filterMap, beq_iff_eq]
  exact ⟨_, hmem, get_cf_candidates_score_spec dbRecency 7 100 hmem⟩

/-- C5 counterexample: the content pipeline run on a single-item catalog
produces zero edges, yet `save_similarities_to_db` still runs, deleting
the previous non-empty `ml_item_sim_content` snapshot and installing the
empty table. -/
theorem content_pipeline_zero_edge_counterexample :
    extract_top_similar 1 (fun _ _ => 1) (fun i => (i : Int)) = [] ∧
    run_content_similarity_pipeline
      [({ product_id := 1, similar_product_id := 2,
          sim_score := 1 / 2 } : ContentEdge)]
      1 (fun _ _ => 1) (fun i => (i : Int)) = [] ∧
    ([({ product_id := 1, similar_product_id := 2,
         sim_score := 1 / 2 } : ContentEdge)] : List ContentEdge) ≠ [] := by
  have h0 : extract_top_similar 1 (fun _ _ => 1) (fun i => (i : Int)) = [] := by
    norm_num [extract_top_similar, take_top, eff_score, sortByD, insertByD,
      indexer_min_sim, indexer_top_k,
      show List.range 1 = [0] from rfl]
  refine ⟨h0, ?_, by simp⟩
  rw [run_content_similarity_pipeline, content_save_similarities, h0]

/-- C5 amended: the collaborative pipeline rejects a rebuild that produces
zero edges (`if similarities:` guards the save; the `else` raises
`ValueError`) and keeps the previous `ml_item_sim_cf` snapshot, but the
content pipeline saves unconditionally — its resulting table is always the
freshly computed edge set, even when that set is empty. -/
theorem indexer_zero_edges_spec :
    (∀ (prev : List CFEdge) (n : Nat) (sim : Nat → Nat → ℚ)
      (co : Nat → Nat → Nat) (idOf : Nat → Int),
      compute_item_similarities n sim co idOf = [] →
      run_item_knn_cf_pipeline_table prev n sim co idOf = prev) ∧
    (∀ (prev : List ContentEdge) (n : Nat) (sim : Nat → Nat → ℚ)
      (idOf : Nat → Int),
      run_content_similarity_pipeline prev n sim idOf =
        extract_top_similar n sim idOf) := by
  constructor
  · intro prev n sim co idOf h
    simp [run_item_knn_cf_pipeline_table, h]
  · intro prev n sim idOf
    rfl

/-- Closed instance of `indexer_zero_edges_spec`: a zero-item CF rebuild
leaves a one-edge previous snapshot untouched. -/
theorem indexer_zero_edges_spec_witness :
    compute_item_similarities 0 (fun _ _ => 1) (fun _ _ => 10)
      (fun i => (i : Int)) = [] ∧
    run_item_knn_cf_pipeline_table
      [({ product_id := 1, similar_product_id := 2, sim_score := 1 / 2,
          co_users := 6 } : CFEdge)]
      0 (fun _ _ => 1) (fun _ _ => 10) (fun i => (i : Int)) =
      [({ product_id := 1, similar_product_id := 2, sim_score := 1 / 2,
          co_users := 6 } : CFEdge)] :=
  ⟨rfl, (indexer_zero_edges_spec).1 _ 0 _ _ _ rfl⟩

/-- C1 failing input: user 1's entire interaction history is product 10,
an active item with positive popularity but a NULL category.  The user
therefore has no known categories, the fallback popularity query — which
omits the `product_id != ALL(purchased)` clause — returns product 10, and
the Recommend pipeline returns the already-purchased product 10 as its
sole recommendation. -/
theorem history_exclusion_failing_input :
    ((get_hybrid_recommendations dbExclusion 1 20).map
      (fun c => c.product_id)) = [10] ∧
    10 ∈ (dbExclusion.interactions.filter
      (fun i => i.user_id == 1)).map (fun i => i.product_id) ∧
    10 ∈ ((get_user_purchase_history dbExclusion 1).map
      (fun h => h.product_id)) := by
  refine ⟨?_, by norm_num [dbExclusion], ?_⟩
  · norm_num [get_hybrid_recommendations, merge_and_rerank_candidates,
      merged_pool, get_cf_candidates, get_content_candidates,
      get_popularity_candidates, get_user_purchase_history,
      normalize_scores, add_cf_entries, add_cb_entries, add_pop_entries,
      calculate_diversity_penalty, div_go, calculate_novelty_bonus,
      calculate_price_penalty, lookupA, setA, sortByD, insertByD,
      listMin, listMax, user_categories_of, popularity_pos,
      weighted_popularity, mkPopCand, cf_seed_rows, cb_seed_rows,
      updIfBetter, dbExclusion, w_cf, w_cb, w_pop, lambda_div, beta_nov,
      gamma_price, cf_min_history, max_user_history, candidate_limit,
      min_def, List.find?, List.filterMap, beq_iff_eq]
  · norm_num [get_user_purchase_history, dbExclusion, sortByD, insertByD,
      max_user_history, beq_iff_eq]

end CustomerData
